import Mathlib

/-!
Verification of the tic-tac-toe console game (`src/tic-tac-toe/src/main.rs`).

The whole program is one `main` loop over a mutable `Board`.  We embed:
  * the data model (`Player`, `Cell`, `Board`, source lines 5-26);
  * the move validation and placement (source lines 58-64) as `place`;
  * the win-detection pass (source lines 81-107) as `evalPass`;
  * the winner match / turn toggle (source lines 109-125) and the
    input handling (lines 53-61) as one loop iteration `loopStep`;
  * the loop itself as `run`, consuming a list of input lines.

Machine integers: `square` is a Rust `usize`.  The subtraction
`guess.unwrap() - 1` (line 58) is overflow-checked in the default
(debug) profile, so on input `0` the program panics; `loopStep`
models this with the `StepResult.panic` constructor.  `loopStepRelease`
models the release-profile wrapping subtraction for comparison.
-/

/-- Source lines 5-9: `enum Player { X, O }`. -/
inductive Player : Type
  | X : Player
  | O : Player
deriving DecidableEq, Fintype

/-- A grid cell, `Option<Player>` in the source (line 23). -/
abbrev Cell : Type := Option Player

/-- The 3x3 grid `[[Option<Player>; 3]; 3]`, row-major (line 23). -/
abbrev Grid : Type := Fin 3 → Fin 3 → Cell

/-- Source lines 22-26: the board struct. -/
@[ext]
structure Board : Type where
  grid : Grid
  current_turn : Player
  winner : Option Player

/-- The array store `board.grid[r][c] = v` (source line 64). -/
def setCell (g : Grid) (r c : Fin 3) (v : Cell) : Grid :=
  fun i j => if i = r ∧ j = c then v else g i j

/-- One line check (source lines 82-84 and its clones): if the three
cells are equal and non-empty, overwrite the winner with the first cell,
otherwise keep the previous winner. -/
def checkLine (w : Option Player) (a b c : Cell) : Option Player :=
  if a = b ∧ b = c ∧ a.isSome then a else w

/-- The win-detection pass, source lines 81-107: the row loop (81-85),
the column loop (87-94), the main diagonal (96-101) and the
anti-diagonal (102-107), each unconditionally overwriting `board.winner`
on a match.  The two fixed-bound loops are unrolled. -/
def evalPass (b : Board) : Board :=
  let w := b.winner
  let w := checkLine w (b.grid 0 0) (b.grid 0 1) (b.grid 0 2)
  let w := checkLine w (b.grid 1 0) (b.grid 1 1) (b.grid 1 2)
  let w := checkLine w (b.grid 2 0) (b.grid 2 1) (b.grid 2 2)
  let w := checkLine w (b.grid 0 0) (b.grid 1 0) (b.grid 2 0)
  let w := checkLine w (b.grid 0 1) (b.grid 1 1) (b.grid 2 1)
  let w := checkLine w (b.grid 0 2) (b.grid 1 2) (b.grid 2 2)
  let w := checkLine w (b.grid 0 0) (b.grid 1 1) (b.grid 2 2)
  let w := checkLine w (b.grid 0 2) (b.grid 1 1) (b.grid 2 0)
  { b with winner := w }

/-- The winner of a single line, if any: `some p` exactly when the three
cells are equal and non-empty. -/
def lineWinner (l : Cell × Cell × Cell) : Option Player :=
  if l.1 = l.2.1 ∧ l.2.1 = l.2.2 ∧ l.1.isSome then l.1 else none

/-- The 8 lines in the exact order the source checks them:
rows top to bottom, columns left to right, main diagonal, anti-diagonal. -/
def linesOf (g : Grid) : List (Cell × Cell × Cell) :=
  [ (g 0 0, g 0 1, g 0 2)
  , (g 1 0, g 1 1, g 1 2)
  , (g 2 0, g 2 1, g 2 2)
  , (g 0 0, g 1 0, g 2 0)
  , (g 0 1, g 1 1, g 2 1)
  , (g 0 2, g 1 2, g 2 2)
  , (g 0 0, g 1 1, g 2 2)
  , (g 0 2, g 1 1, g 2 0) ]

/-- Folding `checkLine` over a list of lines, starting from a previous
winner; `evalPass` is definitionally this fold over `linesOf`. -/
def runChecks (w : Option Player) (ls : List (Cell × Cell × Cell)) : Option Player :=
  ls.foldl (fun acc l => checkLine acc l.1 l.2.1 l.2.2) w

/-- Modelled from the spec (section 4.1): the source inlines move
validation without an error type; the spec names the two failure cases. -/
inductive MoveError : Type
  | OutOfRange : MoveError
  | Occupied : MoveError
deriving DecidableEq

/-- Source lines 59-64: the guard
`square > 8 || board.grid[square / 3][square % 3].is_some()` (with
short-circuit `||`, so the grid is only indexed when `square <= 8`),
and on success the store
`board.grid[square / 3][square % 3] = Some(board.current_turn)`. -/
def place (b : Board) (square : Nat) : Except MoveError Board :=
  if h : 8 < square then Except.error MoveError.OutOfRange
  else if (b.grid ⟨square / 3, by omega⟩ ⟨square % 3, by omega⟩).isSome then
    Except.error MoveError.Occupied
  else
    Except.ok { b with
      grid := setCell b.grid ⟨square / 3, by omega⟩ ⟨square % 3, by omega⟩
        (some b.current_turn) }

/-- Source lines 121-125: flip the current player. -/
def otherPlayer (p : Player) : Player :=
  if p = Player.X then Player.O else Player.X

/-- Source lines 110-116: the string printed for the winning player. -/
def winsMessage (p : Player) : String :=
  match p with
  | Player.X => "X wins"
  | Player.O => "O wins"

/-- The possible outcomes of one iteration of the `loop` (lines 46-126). -/
inductive StepResult : Type
  | panic : StepResult
  | cont : Board → StepResult
  | won : Board → Player → StepResult

/-- One iteration of the game loop, from the parsed input onward
(source lines 53-125).  `none` is a parse failure (lines 55-57, the
`continue`).  `some n` is a parsed `usize`; line 58 computes
`n - 1` in `usize`, which in the default debug profile panics on `n = 0`
(overflow-checked subtraction).  A rejected move (lines 59-61) continues
with the board untouched; an accepted move stores the mark (line 64),
runs the win-detection pass (lines 81-107), and either breaks with the
winner (lines 109-119) or toggles the turn (lines 121-125). -/
def loopStep (b : Board) (input : Option Nat) : StepResult :=
  match input with
  | none => StepResult.cont b
  | some n =>
    if n = 0 then StepResult.panic
    else
      match place b (n - 1) with
      | Except.error _ => StepResult.cont b
      | Except.ok bp =>
        match (evalPass bp).winner with
        | some p => StepResult.won (evalPass bp) p
        | none =>
          StepResult.cont
            { evalPass bp with
              current_turn := otherPlayer (evalPass bp).current_turn }

/-- One iteration under the release profile, where the `usize`
subtraction on line 58 wraps modulo `2 ^ 64` instead of panicking.
Only the `n = 0` case differs from `loopStep`: `0 - 1` wraps to
`2 ^ 64 - 1`, which the `square > 8` guard rejects. -/
def loopStepRelease (b : Board) (input : Option Nat) : StepResult :=
  match input with
  | none => StepResult.cont b
  | some n =>
    match place b ((n + (2 ^ 64 - 1)) % 2 ^ 64) with
    | Except.error _ => StepResult.cont b
    | Except.ok bp =>
      match (evalPass bp).winner with
      | some p => StepResult.won (evalPass bp) p
      | none =>
        StepResult.cont
          { evalPass bp with
            current_turn := otherPlayer (evalPass bp).current_turn }

/-- Whitespace stripped from both ends, as `str::trim` does (Rust trims
the Unicode White_Space set; on console input this is the usual ASCII
whitespace, which `Char.isWhitespace` covers). -/
def trimChars (cs : List Char) : List Char :=
  ((cs.dropWhile Char.isWhitespace).reverse.dropWhile Char.isWhitespace).reverse

/-- The numeric value of a decimal digit character, if it is one. -/
def charDigit (c : Char) : Option Nat :=
  if c.isDigit then some (c.toNat - 48) else none

/-- Accumulate a decimal number over a digit list; `none` on the first
non-digit character. -/
def parseDigits (acc : Nat) : List Char → Option Nat
  | [] => some acc
  | c :: cs =>
    match charDigit c with
    | some d => parseDigits (acc * 10 + d) cs
    | none => none

/-- Source line 53: `turn.trim().parse::<usize>()`.  Rust's `usize`
parser accepts an optional leading `+` sign, then one or more decimal
digits and nothing else, and rejects values above `usize::MAX`
(`2 ^ 64 - 1` on a 64-bit target). -/
def parseInput (s : String) : Option Nat :=
  let cs := trimChars s.data
  let cs := match cs with
    | '+' :: rest => rest
    | other => other
  match cs with
  | [] => none
  | _ =>
    match parseDigits 0 cs with
    | some n => if n < 2 ^ 64 then some n else none
    | none => none

/-- One iteration of the game loop from a raw input line. -/
def readLineStep (b : Board) (line : String) : StepResult :=
  loopStep b (parseInput line)

/-- How a run of the game loop ends. -/
inductive Final : Type
  | winner : Board → Player → Final
  | panicked : Board → Final
  | inputsEnded : Board → Final

/-- The game loop (source lines 46-126) over a list of parsed inputs:
it stops at a panic or at a win (`break`, lines 112 and 116), and
otherwise loops. -/
def run (b : Board) : List (Option Nat) → Final
  | [] => Final.inputsEnded b
  | input :: rest =>
    match loopStep b input with
    | StepResult.panic => Final.panicked b
    | StepResult.cont b' => run b' rest
    | StepResult.won b' p => Final.winner b' p

/-- Modelled from the spec (section 8): player `p` has a winning line,
i.e. one of the 8 lines has all three cells equal to `OccupiedBy(p)`. -/
def winFor (g : Grid) (p : Player) : Bool :=
  (linesOf g).any fun l => l.1 == some p && (l.2.1 == some p && l.2.2 == some p)

/-- The player of the last line, in source check order, that is fully
occupied by one player; `none` when no line is. -/
def lastLineWinner (g : Grid) : Option Player :=
  ((linesOf g).filterMap lineWinner).getLast?

/-- The nine cells of a grid, row-major. -/
def cellsOf (g : Grid) : List Cell :=
  [ g 0 0, g 0 1, g 0 2, g 1 0, g 1 1, g 1 2, g 2 0, g 2 1, g 2 2 ]

/-- The number of occupied cells. -/
def countOccupied (g : Grid) : Nat :=
  (cellsOf g).countP fun c => c.isSome

/-- Source lines 41-45: the freshly created board. -/
def initialBoard : Board :=
  { grid := fun _ _ => none, current_turn := Player.X, winner := none }

/-- The board after X's opening move on square index 0. -/
def b0place : Board :=
  { initialBoard with
    grid := setCell initialBoard.grid ⟨0, by omega⟩ ⟨0, by omega⟩
      (some initialBoard.current_turn) }

/-- The board after a move on square index 4 (centre). -/
def b4 : Board :=
  { initialBoard with
    grid := setCell initialBoard.grid ⟨4 / 3, by omega⟩ ⟨4 % 3, by omega⟩
      (some initialBoard.current_turn) }

/-- A grid with X along the main diagonal. -/
def gX : Grid := fun i j => if i = j then some Player.X else none

/-- A board holding `gX`, winner not yet evaluated. -/
def bXwin : Board := { grid := gX, current_turn := Player.O, winner := none }

/-- An adversarial grid with two complete lines: the top row all X and
the bottom row all O. -/
def gDouble : Grid := fun i _ =>
  if i = 0 then some Player.X else if i = 2 then some Player.O else none

/-- A board holding `gDouble`, winner not yet evaluated. -/
def bDouble : Board := { grid := gDouble, current_turn := Player.X, winner := none }

/-- A board one move away from a win: X on squares 0 and 1, O on
squares 3 and 4, X to move. -/
def bW : Board :=
  { grid := fun i j =>
      if i = 0 ∧ (j = 0 ∨ j = 1) then some Player.X
      else if i = 1 ∧ (j = 0 ∨ j = 1) then some Player.O
      else none
    current_turn := Player.X
    winner := none }

/-- The board produced by X completing the top row from `bW`
(square index 2) and running the win-detection pass. -/
def bWfin : Board :=
  evalPass { bW with
    grid := setCell bW.grid ⟨2 / 3, by omega⟩ ⟨2 % 3, by omega⟩
      (some bW.current_turn) }

/-- A board whose winner field is already set. -/
def bWon : Board := { initialBoard with winner := some Player.X }

/-! ## General lemmas about `Option.or`, `getLast?` and the check fold -/

lemma opt_or_none {α : Type} (a : Option α) : Option.or a none = a := by
  cases a <;> rfl

lemma opt_or_assoc {α : Type} (a b c : Option α) :
    Option.or (Option.or a b) c = Option.or a (Option.or b c) := by
  cases a <;> rfl

lemma getLast?_cons_or {α : Type} (a : α) (xs : List α) :
    (a :: xs).getLast? = Option.or xs.getLast? (some a) := by
  cases xs with
  | nil => rw [List.getLast?_singleton]; rfl
  | cons b t =>
    rw [List.getLast?_cons_cons]
    obtain ⟨y, hy⟩ :=
      Option.isSome_iff_exists.mp (List.getLast?_isSome.mpr (List.cons_ne_nil b t))
    rw [hy]
    rfl

lemma getLast?_mem_of_eq {α : Type} :
    ∀ {l : List α} {a : α}, l.getLast? = some a → a ∈ l := by
  intro l
  induction l with
  | nil => intro a h; exact Option.noConfusion h
  | cons x t ih =>
    intro a h
    cases t with
    | nil =>
      rw [List.getLast?_singleton] at h
      injection h with h'
      exact h' ▸ List.mem_cons_self x []
    | cons y t' =>
      rw [List.getLast?_cons_cons] at h
      exact List.mem_cons_of_mem x (ih h)

lemma checkLine_or (w : Option Player) (l : Cell × Cell × Cell) :
    checkLine w l.1 l.2.1 l.2.2 = Option.or (lineWinner l) w := by
  unfold checkLine lineWinner
  by_cases h : l.1 = l.2.1 ∧ l.2.1 = l.2.2 ∧ l.1.isSome
  · rw [if_pos h, if_pos h]
    obtain ⟨a, ha⟩ := Option.isSome_iff_exists.mp h.2.2
    rw [ha]
    rfl
  · rw [if_neg h, if_neg h]
    rfl

/-- The check fold keeps the previous winner unless some line matches,
and then returns the winner of the last matching line. -/
lemma runChecks_eq : ∀ (ls : List (Cell × Cell × Cell)) (w : Option Player),
    runChecks w ls = Option.or ((ls.filterMap lineWinner).getLast?) w := by
  intro ls
  induction ls with
  | nil => intro w; rfl
  | cons l t ih =>
    intro w
    have h1 : runChecks w (l :: t) = runChecks (checkLine w l.1 l.2.1 l.2.2) t := rfl
    rw [h1, ih, checkLine_or]
    cases hl : lineWinner l with
    | none =>
      rw [List.filterMap_cons_none hl]
      rfl
    | some p =>
      rw [List.filterMap_cons_some hl, getLast?_cons_or, opt_or_assoc]

/-! ## Lemmas about the win-detection pass and `place` -/

lemma evalPass_winner_eq (b : Board) :
    (evalPass b).winner = runChecks b.winner (linesOf b.grid) := rfl

lemma evalPass_grid (b : Board) : (evalPass b).grid = b.grid := rfl

lemma evalPass_turn (b : Board) : (evalPass b).current_turn = b.current_turn := rfl

lemma evalPass_winner_or (b : Board) :
    (evalPass b).winner = Option.or (lastLineWinner b.grid) b.winner := by
  rw [evalPass_winner_eq, runChecks_eq]
  rfl

lemma evalPass_winner_of_none (b : Board) (h : b.winner = none) :
    (evalPass b).winner = lastLineWinner b.grid := by
  rw [evalPass_winner_or, h, opt_or_none]

lemma lineWinner_eq_some :
    ∀ (l : Cell × Cell × Cell) (p : Player),
      lineWinner l = some p ↔ (l.1 = some p ∧ l.2.1 = some p ∧ l.2.2 = some p) := by
  decide

lemma winFor_iff (g : Grid) (p : Player) :
    winFor g p = true ↔ ∃ l ∈ linesOf g, lineWinner l = some p := by
  unfold winFor
  rw [List.any_eq_true]
  constructor
  · rintro ⟨l, hl, hb⟩
    simp only [Bool.and_eq_true, beq_iff_eq] at hb
    exact ⟨l, hl, (lineWinner_eq_some l p).mpr ⟨hb.1, hb.2.1, hb.2.2⟩⟩
  · rintro ⟨l, hl, hw⟩
    have h3 := (lineWinner_eq_some l p).mp hw
    refine ⟨l, hl, ?_⟩
    simp only [Bool.and_eq_true, beq_iff_eq]
    exact ⟨h3.1, h3.2.1, h3.2.2⟩

lemma otherPlayer_ne : ∀ p : Player, otherPlayer p ≠ p := by
  decide

lemma place_out_iff (b : Board) (s : Nat) :
    place b s = Except.error MoveError.OutOfRange ↔ 8 < s := by
  unfold place
  split
  case isTrue h => simp [h]
  case isFalse h =>
    constructor
    · intro h'
      split at h'
      · injection h' with h''
        exact MoveError.noConfusion h''
      · exact Except.noConfusion h'
    · intro h'
      exact absurd h' h

lemma place_ok_spec (b : Board) (s : Nat) (bp : Board) (h : place b s = Except.ok bp) :
    ∃ hs : s ≤ 8,
      b.grid ⟨s / 3, by omega⟩ ⟨s % 3, by omega⟩ = none
      ∧ bp = { b with
          grid := setCell b.grid ⟨s / 3, by omega⟩ ⟨s % 3, by omega⟩
            (some b.current_turn) } := by
  unfold place at h
  split at h
  · exact Except.noConfusion h
  case isFalse h8 =>
    refine ⟨by omega, ?_, ?_⟩
    · split at h
      · exact Except.noConfusion h
      case isFalse hocc =>
        exact Option.not_isSome_iff_eq_none.mp (by simpa using hocc)
    · split at h
      · exact Except.noConfusion h
      · injection h with h'
        exact h'.symm

lemma place_mono (b : Board) (s : Nat) (bp : Board) (hp : place b s = Except.ok bp)
    (r c : Fin 3) (q : Player) (hq : b.grid r c = some q) : bp.grid r c = some q := by
  obtain ⟨hs, hemp, hbp⟩ := place_ok_spec b s bp hp
  subst hbp
  show setCell b.grid _ _ _ r c = some q
  unfold setCell
  split
  case isTrue h' =>
    rw [← h'.1, ← h'.2] at hemp
    rw [hq] at hemp
    exact Option.noConfusion hemp
  case isFalse h' => exact hq

/-! ## Inversion lemmas for one loop iteration -/

lemma loopStep_ok (b : Board) (n : Nat) (bp : Board) (hn : n ≠ 0)
    (hp : place b (n - 1) = Except.ok bp) :
    loopStep b (some n) =
      match (evalPass bp).winner with
      | some p => StepResult.won (evalPass bp) p
      | none =>
        StepResult.cont
          { evalPass bp with current_turn := otherPlayer (evalPass bp).current_turn } := by
  simp only [loopStep]
  rw [if_neg hn, hp]

lemma loopStep_won_spec (b : Board) (i : Option Nat) (b' : Board) (p : Player)
    (h : loopStep b i = StepResult.won b' p) :
    b'.winner = some p
    ∧ ∃ n bp, i = some n ∧ n ≠ 0 ∧ place b (n - 1) = Except.ok bp ∧ b' = evalPass bp := by
  cases i with
  | none =>
    simp only [loopStep] at h
    exact StepResult.noConfusion h
  | some n =>
    simp only [loopStep] at h
    by_cases hn : n = 0
    · rw [if_pos hn] at h
      exact StepResult.noConfusion h
    · rw [if_neg hn] at h
      cases hp : place b (n - 1) with
      | error e =>
        rw [hp] at h
        exact StepResult.noConfusion h
      | ok bp =>
        rw [hp] at h
        have h' : (match (evalPass bp).winner with
            | some q => StepResult.won (evalPass bp) q
            | none =>
              StepResult.cont
                { evalPass bp with
                  current_turn := otherPlayer (evalPass bp).current_turn })
            = StepResult.won b' p := h
        cases hw : (evalPass bp).winner with
        | none =>
          rw [hw] at h'
          exact StepResult.noConfusion h'
        | some q =>
          rw [hw] at h'
          injection h' with h1 h2
          exact ⟨by rw [← h1, hw, h2], n, bp, rfl, hn, hp, h1.symm⟩

lemma loopStep_cont_spec (b : Board) (i : Option Nat) (b' : Board)
    (h : loopStep b i = StepResult.cont b') :
    b' = b
    ∨ ∃ n bp, i = some n ∧ n ≠ 0 ∧ place b (n - 1) = Except.ok bp
        ∧ (evalPass bp).winner = none
        ∧ b' = { evalPass bp with current_turn := otherPlayer (evalPass bp).current_turn } := by
  cases i with
  | none =>
    left
    simp only [loopStep] at h
    injection h with h'
    exact h'.symm
  | some n =>
    simp only [loopStep] at h
    by_cases hn : n = 0
    · rw [if_pos hn] at h
      exact StepResult.noConfusion h
    · rw [if_neg hn] at h
      cases hp : place b (n - 1) with
      | error e =>
        rw [hp] at h
        left
        injection h with h'
        exact h'.symm
      | ok bp =>
        rw [hp] at h
        have h' : (match (evalPass bp).winner with
            | some q => StepResult.won (evalPass bp) q
            | none =>
              StepResult.cont
                { evalPass bp with
                  current_turn := otherPlayer (evalPass bp).current_turn })
            = StepResult.cont b' := h
        cases hw : (evalPass bp).winner with
        | some q =>
          rw [hw] at h'
          exact StepResult.noConfusion h'
        | none =>
          rw [hw] at h'
          right
          refine ⟨n, bp, rfl, hn, hp, hw, ?_⟩
          injection h' with h''
          exact h''.symm

/-! ## The claims -/

/-- C1: on a board whose winner field is `None`, the win-detection pass
produces `Some(p)` only for a `p` owning one of the 8 lines, and it
produces a `Some` winner exactly when some player owns a full line
(otherwise the outcome stays `None`). -/
theorem eval_some_iff_winning_line (b : Board) (h : b.winner = none) :
    (∀ p, (evalPass b).winner = some p → winFor b.grid p = true)
    ∧ (((evalPass b).winner).isSome = true ↔ ∃ p, winFor b.grid p = true) := by
  have he := evalPass_winner_of_none b h
  constructor
  · intro p hp
    rw [he] at hp
    obtain ⟨l, hl, hw⟩ := List.mem_filterMap.mp (getLast?_mem_of_eq hp)
    exact (winFor_iff _ _).mpr ⟨l, hl, hw⟩
  · rw [he]
    constructor
    · intro hs
      obtain ⟨p, hp⟩ := Option.isSome_iff_exists.mp hs
      obtain ⟨l, hl, hw⟩ := List.mem_filterMap.mp (getLast?_mem_of_eq hp)
      exact ⟨p, (winFor_iff _ _).mpr ⟨l, hl, hw⟩⟩
    · rintro ⟨p, hp⟩
      obtain ⟨l, hl, hw⟩ := (winFor_iff _ _).mp hp
      have hmem : p ∈ (linesOf b.grid).filterMap lineWinner :=
        List.mem_filterMap.mpr ⟨l, hl, hw⟩
      exact List.getLast?_isSome.mpr (List.ne_nil_of_mem hmem)

/-- C1 witness: the diagonal-X board has a winning line for X. -/
theorem eval_some_iff_winning_line_witness : winFor bXwin.grid Player.X = true :=
  (eval_some_iff_winning_line bXwin rfl).1 Player.X rfl

/-- C2: when at least two of the 8 lines are complete, the pass returns
the player of the last matching line in source check order (rows top to
bottom, columns left to right, main diagonal, anti-diagonal), and that
player exists; the pass is a total function, so it cannot crash. -/
theorem eval_last_match_wins (b : Board) (h0 : b.winner = none)
    (h2 : 2 ≤ (linesOf b.grid).countP fun l => (lineWinner l).isSome) :
    (evalPass b).winner = lastLineWinner b.grid
    ∧ (lastLineWinner b.grid).isSome = true := by
  refine ⟨evalPass_winner_of_none b h0, ?_⟩
  have hpos : 0 < (linesOf b.grid).countP fun l => (lineWinner l).isSome := by omega
  obtain ⟨l, hl, hp⟩ := List.countP_pos_iff.mp hpos
  obtain ⟨q, hq⟩ := Option.isSome_iff_exists.mp hp
  have hmem : q ∈ (linesOf b.grid).filterMap lineWinner :=
    List.mem_filterMap.mpr ⟨l, hl, hq⟩
  exact List.getLast?_isSome.mpr (List.ne_nil_of_mem hmem)

/-- C2 witness: top row all X and bottom row all O; the bottom row is
the later line in check order, so O is returned. -/
theorem eval_last_match_wins_witness :
    (evalPass bDouble).winner = lastLineWinner bDouble.grid
    ∧ (lastLineWinner bDouble.grid).isSome = true :=
  eval_last_match_wins bDouble rfl (by decide)

/-- C3: a move rejected by the guard (out of range or occupied) leaves
the loop with the very same board: grid, current turn and winner all
unchanged. -/
theorem rejected_move_keeps_board (b : Board) (n : Nat) (e : MoveError)
    (hn : n ≠ 0) (h : place b (n - 1) = Except.error e) :
    loopStep b (some n) = StepResult.cont b := by
  simp only [loopStep]
  rw [if_neg hn, h]

/-- C3 witness: input 10 (square index 9) is rejected on the initial
board and the board is returned untouched. -/
theorem rejected_move_keeps_board_witness :
    loopStep initialBoard (some 10) = StepResult.cont initialBoard :=
  rejected_move_keeps_board initialBoard 10 MoveError.OutOfRange (by decide) rfl

/-- C4 (code bug): entering `0` does not silently re-prompt; the
`usize` subtraction `guess.unwrap() - 1` on source line 58 underflows,
which panics under the default (debug) profile. -/
theorem zero_input_panics : readLineStep initialBoard "0" = StepResult.panic := rfl

/-- Under the release profile the subtraction wraps to `2 ^ 64 - 1`,
which the `square > 8` guard rejects, so input `0` silently re-prompts
there: the behaviour the claim describes holds only for release builds. -/
theorem zero_input_release_continues (b : Board) :
    loopStepRelease b (some 0) = StepResult.cont b := rfl

/-- C5: after an accepted placement the turn flips exactly when the
pass found no winner; when it found a winner the turn is unchanged and
the loop stops, so no further transition happens. -/
theorem turn_toggle_iff_no_winner (b : Board) (n : Nat) (bp : Board)
    (hn : n ≠ 0) (hp : place b (n - 1) = Except.ok bp) :
    ((evalPass bp).winner = none →
        loopStep b (some n)
          = StepResult.cont { evalPass bp with current_turn := otherPlayer b.current_turn }
        ∧ otherPlayer b.current_turn ≠ b.current_turn)
    ∧ (∀ p, (evalPass bp).winner = some p →
        loopStep b (some n) = StepResult.won (evalPass bp) p
        ∧ (evalPass bp).current_turn = b.current_turn
        ∧ ∀ rest, run b (some n :: rest) = Final.winner (evalPass bp) p) := by
  obtain ⟨hs, hemp, hbp⟩ := place_ok_spec b (n - 1) bp hp
  have hturn : (evalPass bp).current_turn = b.current_turn := by
    rw [hbp]
    rfl
  constructor
  · intro hw
    refine ⟨?_, otherPlayer_ne b.current_turn⟩
    rw [loopStep_ok b n bp hn hp, hturn, hw]
  · intro p hw
    have hstep : loopStep b (some n) = StepResult.won (evalPass bp) p := by
      rw [loopStep_ok b n bp hn hp, hw]
    refine ⟨hstep, hturn, ?_⟩
    intro rest
    simp only [run]
    rw [hstep]

/-- C5 witness: X places on square index 0 of the empty board, no
winner is found, and the turn flips from X to O. -/
theorem turn_toggle_iff_no_winner_witness :
    loopStep initialBoard (some 1)
      = StepResult.cont
          { evalPass b0place with current_turn := otherPlayer initialBoard.current_turn }
    ∧ otherPlayer initialBoard.current_turn ≠ initialBoard.current_turn :=
  (turn_toggle_iff_no_winner initialBoard 1 b0place (by decide) rfl).1 rfl

/-- C6: the win-detection pass is idempotent: a second pass with no
intervening placement returns the same board, outcome included. -/
theorem eval_idempotent (b : Board) : evalPass (evalPass b) = evalPass b := by
  refine Board.ext ?_ ?_ ?_
  · rfl
  · rfl
  · rw [evalPass_winner_or (evalPass b), evalPass_grid, evalPass_winner_or b]
    generalize lastLineWinner b.grid = L
    cases L <;> rfl

/-- C7: one loop iteration never clears or reassigns an occupied cell,
and the number of occupied cells never exceeds 9. -/
theorem occupied_cells_preserved (b : Board) (i : Option Nat) (b' : Board)
    (h : loopStep b i = StepResult.cont b' ∨ ∃ p, loopStep b i = StepResult.won b' p) :
    (∀ (r c : Fin 3) (q : Player), b.grid r c = some q → b'.grid r c = some q)
    ∧ countOccupied b'.grid ≤ 9 := by
  constructor
  · intro r c q hq
    rcases h with hcont | ⟨p, hwon⟩
    · rcases loopStep_cont_spec b i b' hcont with hb | ⟨n, bp, _, _, hp, _, hb⟩
      · rw [hb]; exact hq
      · rw [hb]
        exact place_mono b (n - 1) bp hp r c q hq
    · obtain ⟨_, n, bp, _, _, hp, hb⟩ := loopStep_won_spec b i b' p hwon
      rw [hb]
      exact place_mono b (n - 1) bp hp r c q hq
  · unfold countOccupied
    have hle := @List.countP_le_length Cell (fun c => c.isSome) (cellsOf b'.grid)
    have h9 : (cellsOf b'.grid).length = 9 := rfl
    omega

/-- C7 witness: the occupied corner survives a parse-failure iteration,
and the count bound holds. -/
theorem occupied_cells_preserved_witness :
    b0place.grid ⟨0, by omega⟩ ⟨0, by omega⟩ = some Player.X
    ∧ countOccupied b0place.grid ≤ 9 :=
  ⟨(occupied_cells_preserved b0place none b0place (Or.inl rfl)).1
      ⟨0, by omega⟩ ⟨0, by omega⟩ Player.X rfl,
   (occupied_cells_preserved b0place none b0place (Or.inl rfl)).2⟩

/-- C8: once an iteration ends with a winner, the loop breaks: the run
ignores all remaining inputs and finishes with that board and player,
the board's winner field matches, and the printed message is `X wins`
or `O wins` according to the player. -/
theorem win_terminates_loop (b : Board) (i : Option Nat) (rest : List (Option Nat))
    (b' : Board) (p : Player) (h : loopStep b i = StepResult.won b' p) :
    run b (i :: rest) = Final.winner b' p
    ∧ b'.winner = some p
    ∧ (winsMessage p = "X wins" ↔ p = Player.X)
    ∧ (winsMessage p = "O wins" ↔ p = Player.O) := by
  refine ⟨?_, (loopStep_won_spec b i b' p h).1, ?_, ?_⟩
  · simp only [run]
    rw [h]
  · cases p <;> decide
  · cases p <;> decide

/-- C8 witness: X completes the top row; the run stops at once, the
remaining input is never consumed, and the message is `X wins`. -/
theorem win_terminates_loop_witness :
    run bW [some 3, some 5] = Final.winner bWfin Player.X
    ∧ bWfin.winner = some Player.X
    ∧ (winsMessage Player.X = "X wins" ↔ Player.X = Player.X)
    ∧ (winsMessage Player.X = "O wins" ↔ Player.X = Player.O) :=
  win_terminates_loop bW (some 3) [some 5] bWfin Player.X rfl

/-- C9: placement fails with `OutOfRange` exactly when the zero-based
square index exceeds 8; a successful placement writes the current
player's mark at row `square / 3`, column `square % 3`, leaving the
turn, the winner and every other cell unchanged. -/
theorem place_effect (b : Board) (s : Nat) :
    (place b s = Except.error MoveError.OutOfRange ↔ 8 < s)
    ∧ ∀ hs : s ≤ 8, ∀ bp, place b s = Except.ok bp →
        bp.current_turn = b.current_turn
        ∧ bp.winner = b.winner
        ∧ bp.grid ⟨s / 3, by omega⟩ ⟨s % 3, by omega⟩ = some b.current_turn
        ∧ ∀ r c : Fin 3, ¬(r.val = s / 3 ∧ c.val = s % 3) → bp.grid r c = b.grid r c := by
  refine ⟨place_out_iff b s, ?_⟩
  intro hs bp hok
  obtain ⟨hs', hemp, hbp⟩ := place_ok_spec b s bp hok
  subst hbp
  refine ⟨rfl, rfl, ?_, ?_⟩
  · show setCell _ _ _ _ _ _ = _
    unfold setCell
    rw [if_pos ⟨rfl, rfl⟩]
  · intro r c hne
    show setCell _ _ _ _ _ _ = _
    unfold setCell
    rw [if_neg ?_]
    rintro ⟨h1, h2⟩
    exact hne ⟨congrArg Fin.val h1, congrArg Fin.val h2⟩

/-- C9 witness: placing on square index 4 of the empty board marks the
centre cell for X and keeps the turn. -/
theorem place_effect_witness :
    b4.grid ⟨4 / 3, by omega⟩ ⟨4 % 3, by omega⟩ = some initialBoard.current_turn
    ∧ b4.current_turn = initialBoard.current_turn :=
  ⟨((place_effect initialBoard 4).2 (by omega) b4 rfl).2.2.1,
   ((place_effect initialBoard 4).2 (by omega) b4 rfl).1⟩

/-- C10: the pass only overwrites the winner with `Some` values and has
no branch writing `None`, so a `Some` winner stays `Some` across a
pass. -/
theorem winner_monotone (b : Board) (h : (b.winner).isSome = true) :
    ((evalPass b).winner).isSome = true := by
  rw [evalPass_winner_or]
  obtain ⟨q, hq⟩ := Option.isSome_iff_exists.mp h
  rw [hq]
  generalize lastLineWinner b.grid = L
  cases L <;> rfl

/-- C10 witness: a board with winner already `Some X` and an empty grid
still has a `Some` winner after the pass. -/
theorem winner_monotone_witness : ((evalPass bWon).winner).isSome = true :=
  winner_monotone bWon rfl
